import Mathlib

/-!
Verification of the Portainer–Tailscale deployment action.

This file shallowly embeds the core modules of the repository:

* `src/utils/env-parser.ts` — `parseEnvVars`, the KEY=VALUE parser;
* `src/utils/retry.ts` — `retry`, the bounded-attempt backoff executor;
* `src/portainer/stacks.ts` — `listStacks`, `findStackByName`,
  `deployStack`, `removeStack`, the stack reconciler;
* the process-wide TLS flag manipulation in
  `src/tailscale/connect.ts` (`waitForPortainerReachable`) and
  `src/portainer/client.ts` (`PortainerClient` constructor).

Stateful TypeScript (the remote Portainer server, the
`NODE_TLS_REJECT_UNAUTHORIZED` environment variable) is modelled by
explicit state passing; promise rejection is modelled by `Except`.
-/

deriving instance DecidableEq for Except

namespace PortainerAction

/-- Environment variable in Portainer stack format
(`StackEnvVar` in `src/utils/env-parser.ts`). -/
structure StackEnvVar where
  name : String
  value : String
deriving Repr, DecidableEq

/-! ### Env-var parser (`src/utils/env-parser.ts`)

The JS implementation keeps a `Map<string, number>` (`seen`) from key to
current index in `result`; we model that map as a function
`String → Option Nat`.  JS strings are modelled as `List Char`
(converted back to `String` for the stored names, values and error
messages); `String.prototype.trim`, `split('\n')`, `startsWith('#')`
and `indexOf('=')` are given as the structural helpers below.  The
loop over `lines` becomes structural recursion with the 0-based line
index `i` carried along. -/

/-- Model of `String.prototype.trim`: remove whitespace from both ends
of a character sequence. -/
def jsTrim (cs : List Char) : List Char :=
  ((cs.dropWhile Char.isWhitespace).reverse.dropWhile Char.isWhitespace).reverse

/-- Model of `String.prototype.split` with a single-character
separator: every occurrence of `sep` is a cut point and empty pieces
are preserved, as in JS. -/
def jsSplit (sep : Char) : List Char → List (List Char)
  | [] => [[]]
  | c :: cs =>
    if c = sep then [] :: jsSplit sep cs
    else
      match jsSplit sep cs with
      | [] => [[c]]
      | piece :: pieces => (c :: piece) :: pieces

/-- One step of the JS `Map.prototype.set`: update the binding of `key`. -/
def mapSet (seen : String → Option Nat) (key : String) (v : Nat) :
    String → Option Nat :=
  fun k => if k = key then some v else seen k

/-- Loop body of `parseEnvVars` (`src/utils/env-parser.ts`, lines
33–72): processes the remaining raw lines, starting at 0-based line
index `i`, with the current `seen` map and accumulated `result`.  The
`line.startsWith('#')` comment test appears as a head-character match,
and `line.indexOf('=') === -1` as `eqIndex = line.length` (our
`List.indexOf` returns the length when the character is absent). -/
def parseLoop (seen : String → Option Nat) (result : List StackEnvVar) :
    Nat → List (List Char) → Except String (List StackEnvVar)
  | _, [] => .ok result
  | i, raw :: rest =>
    let line := jsTrim raw
    if line = [] ∨ line.head? = some '#' then
      parseLoop seen result (i + 1) rest
    else
      let eqIndex := line.indexOf '='
      if eqIndex = line.length then
        .error ("Malformed env var on line " ++ toString (i + 1) ++ ": \""
          ++ line.asString ++ "\" — expected KEY=VALUE format")
      else
        let key := (jsTrim (line.take eqIndex)).asString
        let value := (jsTrim (line.drop (eqIndex + 1))).asString
        if key = "" then
          .error ("Empty key on line " ++ toString (i + 1) ++ ": \""
            ++ line.asString ++ "\" — key cannot be empty")
        else
          match seen key with
          | some existingIndex =>
            let result' := result.eraseIdx existingIndex
            let seen' : String → Option Nat := fun k =>
              (seen k).map (fun idx =>
                if existingIndex < idx then idx - 1 else idx)
            parseLoop (mapSet seen' key result'.length)
              (result' ++ [⟨key, value⟩]) (i + 1) rest
          | none =>
            parseLoop (mapSet seen key result.length)
              (result ++ [⟨key, value⟩]) (i + 1) rest

/-- Embedding of `parseEnvVars` (`src/utils/env-parser.ts`): parses a
multiline string of KEY=VALUE pairs into an array of `StackEnvVar`,
duplicate keys resolved via the seen-map/splice mechanism; malformed
lines and empty keys raise errors. -/
def parseEnvVars (input : String) : Except String (List StackEnvVar) :=
  if jsTrim input.toList = [] then .ok []
  else parseLoop (fun _ => none) [] 0 (jsSplit '\n' input.toList)

/-- Spec-level companion loop of `parseEnvVars`: collects the declared
KEY=VALUE pairs of the remaining lines in declaration order, with the
same line validation but no duplicate resolution. -/
def pairsLoop : Nat → List (List Char) → Except String (List StackEnvVar)
  | _, [] => .ok []
  | i, raw :: rest =>
    let line := jsTrim raw
    if line = [] ∨ line.head? = some '#' then
      pairsLoop (i + 1) rest
    else
      let eqIndex := line.indexOf '='
      if eqIndex = line.length then
        .error ("Malformed env var on line " ++ toString (i + 1) ++ ": \""
          ++ line.asString ++ "\" — expected KEY=VALUE format")
      else
        let key := (jsTrim (line.take eqIndex)).asString
        let value := (jsTrim (line.drop (eqIndex + 1))).asString
        if key = "" then
          .error ("Empty key on line " ++ toString (i + 1) ++ ": \""
            ++ line.asString ++ "\" — key cannot be empty")
        else
          (pairsLoop (i + 1) rest).map (fun ps => ⟨key, value⟩ :: ps)

/-- Spec-level companion of `parseEnvVars`: the declared pairs of the
input in declaration order, without duplicate resolution. -/
def parsePairs (input : String) : Except String (List StackEnvVar) :=
  if jsTrim input.toList = [] then .ok []
  else pairsLoop 0 (jsSplit '\n' input.toList)

/-- Spec-level duplicate resolution: keep, for each name, only its last
occurrence (carrying the last declared value, at the position of the
last occurrence). -/
def lastWins : List StackEnvVar → List StackEnvVar
  | [] => []
  | p :: ps =>
    if p.name ∈ ps.map StackEnvVar.name then lastWins ps
    else p :: lastWins ps

/-! ### Backoff retrier (`src/utils/retry.ts`)

The async function under retry is modelled as a function from the
(1-based) attempt number to an `Except` outcome; the value thrown on
rejection may or may not be an `Error`, which the code normalizes via
`error instanceof Error ? error : new Error(String(error))`.  The
outcome records the returned/raised value, the number of invocations
of `fn`, the `(attempt, error)` pairs passed to the `onRetry`
observer, and the sequence of `sleep` delays.  Delays are rationals
(JS numbers); `maxAttempts` is an `Int` so that non-positive values
behave as in the JS `for` loop, which then runs zero iterations. -/

/-- A JS `Error` value: we track its `message`. -/
structure JsError where
  message : String
deriving Repr, DecidableEq

/-- A value thrown by a JS `throw` / promise rejection: either an
`Error` instance or some other value (carried as its `String(...)`
rendering). -/
inductive JsValue where
  | err (e : JsError)
  | nonError (rendering : String)
deriving Repr, DecidableEq

/-- The normalization `error instanceof Error ? error : new
Error(String(error))` from `src/utils/retry.ts` line 48. -/
def normalizeError : JsValue → JsError
  | .err e => e
  | .nonError s => ⟨s⟩

/-- Retry configuration (`RetryOptions` in `src/utils/retry.ts`); the
optional `onRetry` callback is not part of the record — the calls it
would receive are recorded in the `RetryOutcome` instead. -/
structure RetryOptions where
  maxAttempts : Int
  initialDelayMs : ℚ
  maxDelayMs : ℚ
  backoffMultiplier : ℚ
deriving Repr, DecidableEq

/-- The `DEFAULT_OPTIONS` constant of `src/utils/retry.ts`. -/
def DEFAULT_OPTIONS : RetryOptions :=
  { maxAttempts := 5, initialDelayMs := 2000, maxDelayMs := 10000,
    backoffMultiplier := 2 }

/-- Observable outcome of one `retry` run: final result, how many
times `fn` was invoked, the `(attempt, error)` pairs handed to the
`onRetry` observer, and the delays slept, in order. -/
structure RetryOutcome (T : Type) where
  result : Except JsError T
  calls : Nat
  observed : List (Nat × JsError)
  slept : List ℚ
deriving Repr, DecidableEq

/-- The `for` loop of `retry` (`src/utils/retry.ts` lines 45–62):
`attempt` is the current 1-based attempt number, `remaining` the
number of attempts still allowed including this one (so `remaining =
1` is the `attempt === opts.maxAttempts` case, which breaks and
rethrows with no observer call and no sleep), `delay` the current
delay.  The `remaining = 0` case cannot be reached from `retry`. -/
def retryLoop (fn : Nat → Except JsValue T) (maxD mult : ℚ) :
    Nat → Nat → ℚ → RetryOutcome T
  | _, 0, _ => ⟨.error ⟨"retry: no attempts made"⟩, 0, [], []⟩
  | attempt, remaining + 1, delay =>
    match fn attempt with
    | .ok v => ⟨.ok v, 1, [], []⟩
    | .error e =>
      let lastError := normalizeError e
      match remaining with
      | 0 => ⟨.error lastError, 1, [], []⟩
      | r + 1 =>
        let rest := retryLoop fn maxD mult (attempt + 1) (r + 1)
          (min (delay * mult) maxD)
        ⟨rest.result, rest.calls + 1,
          (attempt, lastError) :: rest.observed, delay :: rest.slept⟩

/-- Embedding of `retry` (`src/utils/retry.ts`): runs the loop from
attempt 1 with `delay = initialDelayMs`; with `maxAttempts ≤ 0` the
loop body never runs and the sentinel `lastError` initializer
`new Error('retry: no attempts made')` is thrown. -/
def retry (fn : Nat → Except JsValue T) (opts : RetryOptions) :
    RetryOutcome T :=
  match opts.maxAttempts.toNat with
  | 0 => ⟨.error ⟨"retry: no attempts made"⟩, 0, [], []⟩
  | n + 1 =>
    retryLoop fn opts.maxDelayMs opts.backoffMultiplier 1 (n + 1)
      opts.initialDelayMs

/-- The delay recurrence of `retry`: `delaySeq maxD mult init n` is
the delay slept before retry number `n + 1`; the next delay is
`min (previous * mult, maxD)` (`src/utils/retry.ts` line 60). -/
def delaySeq (maxD mult init : ℚ) : Nat → ℚ
  | 0 => init
  | n + 1 => min (delaySeq maxD mult init n * mult) maxD

/-! ### Stack reconciler (`src/portainer/stacks.ts`)

The remote Portainer server is modelled as a state holding the list
of stacks and the next id to assign; the HTTP calls a reconciler run
issues are recorded in an `ApiCall` trace.  The server-side semantics
of the four stack endpoints follows the Portainer v2.x API as
documented in `src/portainer/types.ts` and the spec: create assigns a
fresh id and stores name/endpoint/env as requested, update replaces
the stored env of the addressed id, delete removes the addressed
id. -/

/-- Portainer stack resource (`PortainerStack` in
`src/portainer/types.ts`); the source field `Type` is rendered as
`Type'` (`Type` is a Lean keyword), and `Status` and the dates are
carried as numbers. -/
structure PortainerStack where
  Id : Nat
  Name : String
  Type' : Nat
  EndpointId : Nat
  Status : Nat
  Env : List StackEnvVar
  CreationDate : Nat
  UpdateDate : Nat
deriving Repr, DecidableEq

/-- Request body for `POST /api/stacks/create/standalone/string`
(`CreateStackRequest` in `src/portainer/types.ts`). -/
structure CreateStackRequest where
  name : String
  stackFileContent : String
  env : List StackEnvVar
  fromAppTemplate : Bool
deriving Repr, DecidableEq

/-- Request body for `PUT /api/stacks/{id}` (`UpdateStackRequest` in
`src/portainer/types.ts`). -/
structure UpdateStackRequest where
  stackFileContent : String
  env : List StackEnvVar
  prune : Bool
  pullImage : Bool
deriving Repr, DecidableEq

/-- Status component of a `DeployResult`
(`'created' | 'updated' | 'deleted'`). -/
inductive DeployStatus where
  | created
  | updated
  | deleted
deriving Repr, DecidableEq

/-- Result of a deploy operation (`DeployResult` in
`src/portainer/types.ts`). -/
structure DeployResult where
  stackId : Nat
  status : DeployStatus
deriving Repr, DecidableEq

/-- One HTTP call issued against the stacks API. -/
inductive ApiCall where
  | listCall (endpointId : Nat)
  | createCall (endpointId : Nat) (body : CreateStackRequest)
  | updateCall (stackId endpointId : Nat) (body : UpdateStackRequest)
  | deleteCall (stackId endpointId : Nat)
deriving Repr, DecidableEq

/-- State of the remote Portainer server. -/
structure ServerState where
  stackList : List PortainerStack
  nextId : Nat
deriving Repr, DecidableEq

/-- Server semantics of `POST /api/stacks/create/standalone/string`:
assign the next id, store the stack (type 2 = standalone compose,
status 1 = active), return the created resource. -/
def serverCreate (st : ServerState) (endpointId : Nat)
    (body : CreateStackRequest) : PortainerStack × ServerState :=
  let stack : PortainerStack :=
    ⟨st.nextId, body.name, 2, endpointId, 1, body.env, 0, 0⟩
  (stack, ⟨st.stackList ++ [stack], st.nextId + 1⟩)

/-- Server semantics of `PUT /api/stacks/{id}`: replace the stored env
of the stack with the addressed id; name, endpoint and id are
untouched. -/
def serverUpdate (st : ServerState) (stackId : Nat)
    (body : UpdateStackRequest) : ServerState :=
  ⟨st.stackList.map (fun s =>
    if s.Id = stackId then { s with Env := body.env, UpdateDate := s.UpdateDate + 1 }
    else s), st.nextId⟩

/-- Server semantics of `DELETE /api/stacks/{id}`: drop the stack with
the addressed id. -/
def serverDelete (st : ServerState) (stackId : Nat) : ServerState :=
  ⟨st.stackList.filter (fun s => s.Id ≠ stackId), st.nextId⟩

/-- Embedding of `listStacks` (`src/portainer/stacks.ts` lines 19–28):
`GET /api/stacks?filters={"EndpointId":N}` returns the server's stacks
on that endpoint. -/
def listStacks (st : ServerState) (endpointId : Nat) :
    List PortainerStack :=
  st.stackList.filter (fun s => s.EndpointId = endpointId)

/-- The search step of `findStackByName` (`src/portainer/stacks.ts`
lines 39–41): `stacks.find((s) => s.Name === name && s.EndpointId ===
endpointId)` over the list returned by `listStacks`. -/
def findStackByName (stackList : List PortainerStack) (name : String)
    (endpointId : Nat) : Option PortainerStack :=
  stackList.find? (fun s => s.Name = name ∧ s.EndpointId = endpointId)

/-- Outcome of one reconciler entry point: the returned
`DeployResult`, the server state afterwards, and the HTTP calls
issued, in order. -/
structure DeployOutcome where
  result : DeployResult
  state : ServerState
  calls : List ApiCall
deriving Repr, DecidableEq

/-- Embedding of `deployStack` (`src/portainer/stacks.ts` lines
128–156): find by name on the endpoint; if found, `PUT` with
`prune: true, pullImage: true` and report `updated` with the existing
id; else `POST` create and report `created` with the newly assigned
id. -/
def deployStack (st : ServerState) (endpointId : Nat)
    (stackName composeContent : String) (envVars : List StackEnvVar) :
    DeployOutcome :=
  match findStackByName (listStacks st endpointId) stackName endpointId with
  | some existing =>
    let body : UpdateStackRequest :=
      { stackFileContent := composeContent, env := envVars,
        prune := true, pullImage := true }
    ⟨⟨existing.Id, .updated⟩, serverUpdate st existing.Id body,
      [.listCall endpointId, .updateCall existing.Id endpointId body]⟩
  | none =>
    let body : CreateStackRequest :=
      { name := stackName, stackFileContent := composeContent,
        env := envVars, fromAppTemplate := false }
    let (created, st') := serverCreate st endpointId body
    ⟨⟨created.Id, .created⟩, st',
      [.listCall endpointId, .createCall endpointId body]⟩

/-- Embedding of `removeStack` (`src/portainer/stacks.ts` lines
161–175): find by name on the endpoint; if absent, report `deleted`
with id 0 and issue no delete call; if present, `DELETE` by id and
report `deleted` with that id. -/
def removeStack (st : ServerState) (endpointId : Nat)
    (stackName : String) : DeployOutcome :=
  match findStackByName (listStacks st endpointId) stackName endpointId with
  | none => ⟨⟨0, .deleted⟩, st, [.listCall endpointId]⟩
  | some existing =>
    ⟨⟨existing.Id, .deleted⟩, serverDelete st existing.Id,
      [.listCall endpointId, .deleteCall existing.Id endpointId]⟩

/-! ### Process-wide TLS flag

`process.env.NODE_TLS_REJECT_UNAUTHORIZED` is modelled as an
`Option String` (`none` = unset).  Two components write it:
`waitForPortainerReachable` (`src/tailscale/connect.ts` lines
121–183), whose `finally` block restores the original value, and the
`PortainerClient` constructor (`src/portainer/client.ts` lines
15–35), which sets it and never restores it.  The body under the
probe's `try` performs only HTTP calls and never writes the variable,
so its outcome is abstracted as a given `Except` value. -/

/-- Environment-variable effect of `waitForPortainerReachable`
(`src/tailscale/connect.ts`): save `originalTlsReject`, set the flag
to `"0"` when `tlsSkipVerify`, run the probe, then in `finally`
restore the saved value (or delete the flag if it was unset and
`tlsSkipVerify` was on).  Returns the probe outcome and the final
variable value. -/
def waitForPortainerReachableTls (tlsSkipVerify : Bool)
    (env : Option String) (probe : Except JsError Unit) :
    Except JsError Unit × Option String :=
  let originalTlsReject := env
  let envDuring := if tlsSkipVerify then some "0" else env
  let envAfter :=
    match originalTlsReject with
    | some v => some v
    | none => if tlsSkipVerify then none else envDuring
  (probe, envAfter)

/-- Environment-variable effect of the `PortainerClient` constructor
(`src/portainer/client.ts`): with `tlsSkipVerify` it sets the flag to
`"0"` (with a warning) and there is no code restoring it; otherwise
the flag is untouched. -/
def portainerClientConstructorTls (tlsSkipVerify : Bool)
    (env : Option String) : Option String :=
  if tlsSkipVerify then some "0" else env

/-! ### Auxiliary definitions for the correctness statements -/

/-- Validity of a retry policy as the spec's data model states it:
`maxAttempts ≥ 1`, `initialDelay ≥ 0`, `maxDelay ≥ initialDelay`,
`backoffMultiplier ≥ 1`. -/
def ValidRetryPolicy (opts : RetryOptions) : Prop :=
  1 ≤ opts.maxAttempts ∧ 0 ≤ opts.initialDelayMs ∧
    opts.initialDelayMs ≤ opts.maxDelayMs ∧ 1 ≤ opts.backoffMultiplier

instance (opts : RetryOptions) : Decidable (ValidRetryPolicy opts) := by
  unfold ValidRetryPolicy; infer_instance

/-- One duplicate-resolution step as a pure list operation: drop any
entry with the incoming name, then append the incoming pair. -/
def dedupStep (acc : List StackEnvVar) (p : StackEnvVar) :
    List StackEnvVar :=
  acc.filter (fun q => decide (q.name ≠ p.name)) ++ [p]

/-- Invariant of the parser loop: the `seen` map binds exactly the
names occurring in `result`, each to the index of its (unique)
entry. -/
def SeenInv (seen : String → Option Nat) (result : List StackEnvVar) :
    Prop :=
  ∀ k i, seen k = some i ↔ ∃ p, result[i]? = some p ∧ p.name = k

/-- Sample operation for the retry witnesses: fails on attempts 1 and
2, succeeds on attempt 3. -/
def sampleOp : Nat → Except JsValue Nat :=
  fun n => if n < 3 then .error (.err ⟨"fail " ++ toString n⟩) else .ok 42

/-- The errors thrown by `sampleOp`. -/
def sampleErrs : Nat → JsValue :=
  fun n => .err ⟨"fail " ++ toString n⟩

/-- Sample operation that fails on every attempt, rejecting with a
non-`Error` value. -/
def failOp : Nat → Except JsValue Nat :=
  fun n => .error (.nonError ("boom " ++ toString n))

/-- The values thrown by `failOp`. -/
def failErrs : Nat → JsValue :=
  fun n => .nonError ("boom " ++ toString n)

/-- Sample server state for the reconciler witnesses: one stack named
`web` on endpoint 9. -/
def sampleServer : ServerState :=
  ⟨[⟨7, "web", 2, 9, 1, [], 0, 0⟩], 10⟩

/-! ## Theorems -/

/-- C5: `parseEnvVars` on `"A=1\nB=2\nA=3"` returns exactly
`[{B,2},{A,3}]`: the duplicate key `A` keeps only its last value and
the final list has exactly 2 entries. -/
theorem parseEnvVars_duplicate_example :
    parseEnvVars "A=1\nB=2\nA=3" =
        .ok [⟨"B", "2"⟩, ⟨"A", "3"⟩] ∧
      ([⟨"B", "2"⟩, ⟨"A", "3"⟩] : List StackEnvVar).length = 2 := by
  decide

/-- C9: `parseEnvVars` returns the empty list on the empty string and
on a whitespace-only string; it fails with a malformed-line error
citing line 1 on `"BADLINE"`, and with an empty-key error citing
line 1 on `"=x"`. -/
theorem parseEnvVars_edge_cases :
    parseEnvVars "" = .ok [] ∧
      parseEnvVars "   " = .ok [] ∧
      parseEnvVars "BADLINE" =
        .error "Malformed env var on line 1: \"BADLINE\" — expected KEY=VALUE format" ∧
      parseEnvVars "=x" =
        .error "Empty key on line 1: \"=x\" — key cannot be empty" := by
  decide

/-- C4, counterexample: on `"A=1\nB=2\nA=3"` the single entry for the
duplicated key `A` does not sit at the position of the key's first
occurrence (which would give `[{A,3},{B,2}]`); it sits at the position
of the last occurrence, giving `[{B,2},{A,3}]`. -/
theorem parseEnvVars_first_occurrence_false :
    parseEnvVars "A=1\nB=2\nA=3" ≠
        .ok [⟨"A", "3"⟩, ⟨"B", "2"⟩] ∧
      parseEnvVars "A=1\nB=2\nA=3" =
        .ok [⟨"B", "2"⟩, ⟨"A", "3"⟩] := by
  decide

/-- C10: with `maxAttempts ≤ 0` the loop of `retry` never runs, so the
operation is never invoked and the sentinel error
`retry: no attempts made` is raised. -/
theorem retry_nonpositive_attempts {T : Type} (fn : Nat → Except JsValue T)
    (opts : RetryOptions) (h : opts.maxAttempts ≤ 0) :
    retry fn opts = ⟨.error ⟨"retry: no attempts made"⟩, 0, [], []⟩ := by
  unfold retry
  rw [Int.toNat_eq_zero.mpr h]

/-- Witness for `retry_nonpositive_attempts` at `maxAttempts = -3`. -/
theorem retry_nonpositive_attempts_witness :
    retry sampleOp ⟨-3, 100, 150, 2⟩ =
      ⟨.error ⟨"retry: no attempts made"⟩, 0, [], []⟩ :=
  retry_nonpositive_attempts sampleOp ⟨-3, 100, 150, 2⟩ (by decide)

/-- C3, counterexample: constructing the API client with
`tlsSkipVerify` on a process whose TLS flag was `"1"` leaves the flag
at `"0"`, not at its prior value — the constructor has no restore
path. -/
theorem tlsFlag_client_constructor_leaks :
    portainerClientConstructorTls true (some "1") = some "0" ∧
      (some "0" : Option String) ≠ some "1" := by
  decide

/-- C3, amended: the reachability probe restores the prior value of
the process-wide TLS flag on every path (any prior value, any
`tlsSkipVerify` setting, success or error of the probe body), but the
`PortainerClient` constructor only leaves the flag unchanged when
`tlsSkipVerify` is off; with it on, the constructor sets the flag to
`"0"` and never restores it. -/
theorem tlsFlag_probe_restores_client_sets :
    (∀ (tlsSkipVerify : Bool) (env : Option String)
        (probe : Except JsError Unit),
        (waitForPortainerReachableTls tlsSkipVerify env probe).2 = env) ∧
      (∀ env : Option String, portainerClientConstructorTls false env = env) ∧
      ∀ env : Option String, portainerClientConstructorTls true env = some "0" := by
  refine ⟨fun sk env probe => ?_, fun env => rfl, fun env => rfl⟩
  cases env <;> cases sk <;> rfl

/-- C2: `removeStack` on an absent (name, endpoint) pair returns
`{stackId: 0, status: deleted}`, leaves the server untouched and
issues no delete call; on a present pair it deletes that stack by id
and returns `{stackId: id, status: deleted}`.  Absence is never an
error: the operation is total. -/
theorem removeStack_delete_idempotent (st : ServerState) (eid : Nat)
    (stackName : String) :
    (findStackByName (listStacks st eid) stackName eid = none →
        (removeStack st eid stackName).result = ⟨0, .deleted⟩ ∧
        (removeStack st eid stackName).state = st ∧
        ∀ sid e, ApiCall.deleteCall sid e ∉ (removeStack st eid stackName).calls) ∧
      ∀ s, findStackByName (listStacks st eid) stackName eid = some s →
        (removeStack st eid stackName).result = ⟨s.Id, .deleted⟩ ∧
        (removeStack st eid stackName).calls =
          [.listCall eid, .deleteCall s.Id eid] ∧
        (removeStack st eid stackName).state = serverDelete st s.Id := by
  constructor
  · intro h
    simp [removeStack, h]
  · intro s h
    simp [removeStack, h]

/-- Witness for `removeStack_delete_idempotent`: endpoint 1 holds no
stack named `web`, endpoint 9 holds it with id 7. -/
theorem removeStack_delete_idempotent_witness :
    (removeStack sampleServer 1 "web").result = ⟨0, .deleted⟩ ∧
      (removeStack sampleServer 1 "web").state = sampleServer ∧
      (removeStack sampleServer 9 "web").result = ⟨7, .deleted⟩ := by
  have h1 := (removeStack_delete_idempotent sampleServer 1 "web").1 (by decide)
  have h2 := (removeStack_delete_idempotent sampleServer 9 "web").2
    ⟨7, "web", 2, 9, 1, [], 0, 0⟩ (by decide)
  exact ⟨h1.1, h1.2.1, h2.1⟩

/-- Shifting the start of the delay recurrence by one step. -/
theorem delaySeq_shift (maxD mult d : ℚ) :
    ∀ i, delaySeq maxD mult (min (d * mult) maxD) i = delaySeq maxD mult d (i + 1) := by
  intro i
  induction i with
  | zero => rfl
  | succ i ih =>
    show min (delaySeq maxD mult (min (d * mult) maxD) i * mult) maxD =
      min (delaySeq maxD mult d (i + 1) * mult) maxD
    rw [ih]

/-- Unfolding `retryLoop` with no attempts left. -/
theorem retryLoop_zero {T : Type} {fn : Nat → Except JsValue T} {maxD mult : ℚ}
    {attempt : Nat} {d : ℚ} :
    retryLoop fn maxD mult attempt 0 d =
      ⟨.error ⟨"retry: no attempts made"⟩, 0, [], []⟩ := by
  rw [retryLoop]

/-- Unfolding `retryLoop` when the current attempt succeeds. -/
theorem retryLoop_ok {T : Type} {fn : Nat → Except JsValue T} {maxD mult : ℚ}
    {attempt r : Nat} {d : ℚ} {v : T} (hfn : fn attempt = .ok v) :
    retryLoop fn maxD mult attempt (r + 1) d = ⟨.ok v, 1, [], []⟩ := by
  rw [retryLoop, hfn]

/-- Unfolding `retryLoop` when the final allowed attempt fails. -/
theorem retryLoop_last {T : Type} {fn : Nat → Except JsValue T} {maxD mult : ℚ}
    {attempt : Nat} {d : ℚ} {e : JsValue} (hfn : fn attempt = .error e) :
    retryLoop fn maxD mult attempt 1 d = ⟨.error (normalizeError e), 1, [], []⟩ := by
  rw [retryLoop, hfn]

/-- Unfolding `retryLoop` when a non-final attempt fails. -/
theorem retryLoop_step {T : Type} {fn : Nat → Except JsValue T} {maxD mult : ℚ}
    {attempt r : Nat} {d : ℚ} {e : JsValue} (hfn : fn attempt = .error e) :
    retryLoop fn maxD mult attempt (r + 2) d =
      ⟨(retryLoop fn maxD mult (attempt + 1) (r + 1) (min (d * mult) maxD)).result,
        (retryLoop fn maxD mult (attempt + 1) (r + 1) (min (d * mult) maxD)).calls + 1,
        (attempt, normalizeError e) ::
          (retryLoop fn maxD mult (attempt + 1) (r + 1) (min (d * mult) maxD)).observed,
        d :: (retryLoop fn maxD mult (attempt + 1) (r + 1) (min (d * mult) maxD)).slept⟩ := by
  rw [retryLoop, hfn]

/-- Every delay recorded by the loop follows the `delaySeq` recurrence
from the delay the loop started with. -/
theorem retryLoop_slept_eq {T : Type} (fn : Nat → Except JsValue T)
    (maxD mult : ℚ) :
    ∀ (r a : Nat) (d : ℚ) (i : Nat) (x : ℚ),
      (retryLoop fn maxD mult a r d).slept[i]? = some x →
      x = delaySeq maxD mult d i := by
  intro r
  induction r with
  | zero => intro a d i x h; rw [retryLoop_zero] at h; simp at h
  | succ r ih =>
    intro a d i x h
    cases hfn : fn a with
    | ok v => rw [retryLoop_ok hfn] at h; simp at h
    | error e =>
      cases r with
      | zero => rw [retryLoop_last hfn] at h; simp at h
      | succ r' =>
        rw [retryLoop_step hfn] at h
        cases i with
        | zero =>
          simp at h
          simp [delaySeq, ← h]
        | succ i =>
          simp at h
          rw [← delaySeq_shift]
          exact ih (a + 1) (min (d * mult) maxD) i x h

/-- Loop behaviour when attempts `a..a+j-1` fail and attempt `a+j`
succeeds within the budget. -/
theorem retryLoop_success {T : Type} (fn : Nat → Except JsValue T)
    (maxD mult : ℚ) (errs : Nat → JsValue) (v : T) :
    ∀ (j a r : Nat) (d : ℚ), j < r →
      (∀ i, i < j → fn (a + i) = .error (errs (a + i))) →
      fn (a + j) = .ok v →
      (retryLoop fn maxD mult a r d).result = .ok v ∧
        (retryLoop fn maxD mult a r d).calls = j + 1 ∧
        (retryLoop fn maxD mult a r d).observed =
          (List.range j).map fun i => (a + i, normalizeError (errs (a + i))) := by
  intro j
  induction j with
  | zero =>
    intro a r d hr hfail hok
    obtain ⟨r', rfl⟩ : ∃ r', r = r' + 1 := ⟨r - 1, by omega⟩
    rw [Nat.add_zero] at hok
    rw [retryLoop_ok hok]
    simp
  | succ j ih =>
    intro a r d hr hfail hok
    obtain ⟨r', rfl⟩ : ∃ r', r = r' + 2 := ⟨r - 2, by omega⟩
    have hfa : fn a = .error (errs a) := by simpa using hfail 0 (Nat.succ_pos j)
    have harg : ∀ i : Nat, a + 1 + i = a + (i + 1) := by omega
    have hfun : (fun i => (a + 1 + i, normalizeError (errs (a + 1 + i)))) =
        fun i => (a + (i + 1), normalizeError (errs (a + (i + 1)))) := by
      funext i; rw [harg i]
    have ihres := ih (a + 1) (r' + 1) (min (d * mult) maxD) (by omega)
      (fun i hi => by rw [harg i]; exact hfail (i + 1) (by omega))
      (by rw [harg j]; exact hok)
    rw [retryLoop_step hfa]
    refine ⟨ihres.1, ?_, ?_⟩
    · show (retryLoop fn maxD mult (a + 1) (r' + 1) (min (d * mult) maxD)).calls + 1 =
        j + 1 + 1
      rw [ihres.2.1]
    · show (a, normalizeError (errs a)) ::
        (retryLoop fn maxD mult (a + 1) (r' + 1) (min (d * mult) maxD)).observed = _
      rw [ihres.2.2, hfun, List.range_succ_eq_map, List.map_cons, List.map_map]
      rfl

/-- Loop behaviour when every attempt in the budget fails. -/
theorem retryLoop_allFail {T : Type} (fn : Nat → Except JsValue T)
    (maxD mult : ℚ) (errs : Nat → JsValue) :
    ∀ (r a : Nat) (d : ℚ), 0 < r →
      (∀ i, i < r → fn (a + i) = .error (errs (a + i))) →
      (retryLoop fn maxD mult a r d).result =
          .error (normalizeError (errs (a + (r - 1)))) ∧
        (retryLoop fn maxD mult a r d).calls = r ∧
        (retryLoop fn maxD mult a r d).observed =
          ((List.range (r - 1)).map fun i => (a + i, normalizeError (errs (a + i)))) ∧
        (retryLoop fn maxD mult a r d).slept =
          (List.range (r - 1)).map (delaySeq maxD mult d) := by
  intro r
  induction r with
  | zero => intro a d h; omega
  | succ r ih =>
    intro a d hr hfail
    have hfa : fn a = .error (errs a) := by simpa using hfail 0 (Nat.succ_pos r)
    cases r with
    | zero =>
      rw [retryLoop_last hfa]
      simp
    | succ r' =>
      have harg : ∀ i : Nat, a + 1 + i = a + (i + 1) := by omega
      have hfun : (fun i => (a + 1 + i, normalizeError (errs (a + 1 + i)))) =
          fun i => (a + (i + 1), normalizeError (errs (a + (i + 1)))) := by
        funext i; rw [harg i]
      have hfun2 : delaySeq maxD mult (min (d * mult) maxD) =
          fun i => delaySeq maxD mult d (i + 1) :=
        funext (delaySeq_shift maxD mult d)
      have ihres := ih (a + 1) (min (d * mult) maxD) (Nat.succ_pos r')
        (fun i hi => by rw [harg i]; exact hfail (i + 1) (by omega))
      rw [retryLoop_step hfa]
      refine ⟨?_, ?_, ?_, ?_⟩
      · show (retryLoop fn maxD mult (a + 1) (r' + 1) (min (d * mult) maxD)).result = _
        rw [ihres.1, harg (r' + 1 - 1)]
        have hi : r' + 1 - 1 + 1 = r' + 1 + 1 - 1 := by omega
        rw [hi]
      · show (retryLoop fn maxD mult (a + 1) (r' + 1) (min (d * mult) maxD)).calls + 1 =
          r' + 1 + 1
        rw [ihres.2.1]
      · show (a, normalizeError (errs a)) ::
          (retryLoop fn maxD mult (a + 1) (r' + 1) (min (d * mult) maxD)).observed = _
        rw [ihres.2.2.1]
        simp only [Nat.add_sub_cancel]
        rw [hfun, List.range_succ_eq_map, List.map_cons, List.map_map]
        rfl
      · show d ::
          (retryLoop fn maxD mult (a + 1) (r' + 1) (min (d * mult) maxD)).slept = _
        rw [ihres.2.2.2]
        simp only [Nat.add_sub_cancel]
        rw [hfun2, List.range_succ_eq_map, List.map_cons, List.map_map]
        rfl



/-- C6: for a policy admitting at least `k` attempts and an operation
that fails on attempts `1..k-1` and succeeds on attempt `k`, `retry`
returns the operation's result, invokes the operation exactly `k`
times, and passes exactly `k-1` pairs (failed attempt number, that
attempt's normalized error) to the `onRetry` observer. -/
theorem retry_succeeds_within_budget {T : Type} (fn : Nat → Except JsValue T)
    (opts : RetryOptions) (errs : Nat → JsValue) (k : Nat) (v : T)
    (hk : 1 ≤ k) (hmax : (k : Int) ≤ opts.maxAttempts)
    (hfail : ∀ i, 1 ≤ i → i < k → fn i = .error (errs i))
    (hok : fn k = .ok v) :
    (retry fn opts).result = .ok v ∧
      (retry fn opts).calls = k ∧
      (retry fn opts).observed =
        (List.range (k - 1)).map fun i => (i + 1, normalizeError (errs (i + 1))) := by
  have hkn : k ≤ opts.maxAttempts.toNat := by omega
  obtain ⟨n, hn⟩ : ∃ n, opts.maxAttempts.toNat = n + 1 := ⟨opts.maxAttempts.toNat - 1, by omega⟩
  have harg : ∀ i : Nat, 1 + i = i + 1 := by omega
  have hfun : (fun i => (1 + i, normalizeError (errs (1 + i)))) =
      fun i => (i + 1, normalizeError (errs (i + 1))) := by
    funext i; rw [harg i]
  have hres := retryLoop_success fn opts.maxDelayMs opts.backoffMultiplier errs v
    (k - 1) 1 (n + 1) opts.initialDelayMs (by omega)
    (fun i hi => by rw [harg i]; exact hfail (i + 1) (by omega) (by omega))
    (by rw [harg (k - 1), show k - 1 + 1 = k by omega]; exact hok)
  rw [hfun] at hres
  unfold retry
  rw [hn]
  exact ⟨hres.1, by rw [hres.2.1]; omega, hres.2.2⟩

/-- Witness for `retry_succeeds_within_budget`: `sampleOp` succeeds on
attempt 3 of 5. -/
theorem retry_succeeds_within_budget_witness :
    (retry sampleOp ⟨5, 100, 150, 2⟩).result = .ok 42 ∧
      (retry sampleOp ⟨5, 100, 150, 2⟩).calls = 3 ∧
      (retry sampleOp ⟨5, 100, 150, 2⟩).observed =
        (List.range (3 - 1)).map fun i => (i + 1, normalizeError (sampleErrs (i + 1))) :=
  retry_succeeds_within_budget sampleOp ⟨5, 100, 150, 2⟩ sampleErrs 3 42
    (by decide) (by decide)
    (fun i h1 h2 => by interval_cases i <;> decide) (by decide)

/-- C7: an operation failing on every allowed attempt is invoked
exactly `maxAttempts` times; `retry` raises the final attempt's error
normalized to an `Error` value, the observer hears only attempts
`1..maxAttempts-1`, and only `maxAttempts - 1` delays are slept — none
after the final failed attempt. -/
theorem retry_exhausts_budget {T : Type} (fn : Nat → Except JsValue T)
    (opts : RetryOptions) (errs : Nat → JsValue)
    (hmax : 1 ≤ opts.maxAttempts)
    (hfail : ∀ i : Nat, 1 ≤ i → (i : Int) ≤ opts.maxAttempts → fn i = .error (errs i)) :
    (retry fn opts).result =
        .error (normalizeError (errs opts.maxAttempts.toNat)) ∧
      (retry fn opts).calls = opts.maxAttempts.toNat ∧
      (retry fn opts).observed =
        ((List.range (opts.maxAttempts.toNat - 1)).map
          fun i => (i + 1, normalizeError (errs (i + 1)))) ∧
      (retry fn opts).slept =
        (List.range (opts.maxAttempts.toNat - 1)).map
          (delaySeq opts.maxDelayMs opts.backoffMultiplier opts.initialDelayMs) := by
  obtain ⟨n, hn⟩ : ∃ n, opts.maxAttempts.toNat = n + 1 := ⟨opts.maxAttempts.toNat - 1, by omega⟩
  have harg : ∀ i : Nat, 1 + i = i + 1 := by omega
  have hfun : (fun i => (1 + i, normalizeError (errs (1 + i)))) =
      fun i => (i + 1, normalizeError (errs (i + 1))) := by
    funext i; rw [harg i]
  have hres := retryLoop_allFail fn opts.maxDelayMs opts.backoffMultiplier errs
    (n + 1) 1 opts.initialDelayMs (Nat.succ_pos n)
    (fun i hi => by rw [harg i]; exact hfail (i + 1) (by omega) (by omega))
  rw [hfun] at hres
  unfold retry
  rw [hn]
  refine ⟨?_, hres.2.1, hres.2.2.1, hres.2.2.2⟩
  rw [hres.1, harg (n + 1 - 1), show n + 1 - 1 + 1 = n + 1 by omega]

/-- Witness for `retry_exhausts_budget`: `failOp` rejects with a
non-`Error` value on all 3 attempts. -/
theorem retry_exhausts_budget_witness :
    (retry failOp ⟨3, 100, 150, 2⟩).result =
        .error (normalizeError (failErrs ((3 : Int)).toNat)) ∧
      (retry failOp ⟨3, 100, 150, 2⟩).calls = ((3 : Int)).toNat :=
  have h := retry_exhausts_budget failOp ⟨3, 100, 150, 2⟩ failErrs (by decide)
    (fun i h1 h2 => by
      have h2a : (i : Int) ≤ 3 := h2
      have h3 : i ≤ 3 := by exact_mod_cast h2a
      interval_cases i <;> decide)
  ⟨h.1, h.2.1⟩

/-- C8: every delay slept by `retry` equals the recurrence value
`delaySeq` that starts at `initialDelayMs` and steps by
`min (previous * backoffMultiplier, maxDelayMs)`; for a valid retry
policy (`initialDelay ≥ 0`, `maxDelay ≥ initialDelay`,
`backoffMultiplier ≥ 1`) the sequence is monotonically non-decreasing
and bounded by `maxDelayMs`; and for initialDelay 100, maxDelay 150,
multiplier 2 the sequence is 100, 150, 150, .... -/
theorem retry_delay_recurrence_monotone {T : Type} (fn : Nat → Except JsValue T)
    (opts : RetryOptions) :
    (∀ i x, (retry fn opts).slept[i]? = some x →
        x = delaySeq opts.maxDelayMs opts.backoffMultiplier opts.initialDelayMs i) ∧
      (ValidRetryPolicy opts → ∀ i,
        delaySeq opts.maxDelayMs opts.backoffMultiplier opts.initialDelayMs i ≤
            delaySeq opts.maxDelayMs opts.backoffMultiplier opts.initialDelayMs (i + 1) ∧
          delaySeq opts.maxDelayMs opts.backoffMultiplier opts.initialDelayMs i ≤
            opts.maxDelayMs) ∧
      delaySeq 150 2 100 0 = 100 ∧ ∀ i, 1 ≤ i → delaySeq 150 2 100 i = 150 := by
  refine ⟨?_, ?_, rfl, ?_⟩
  · intro i x h
    unfold retry at h
    cases hn : opts.maxAttempts.toNat with
    | zero => rw [hn] at h; simp at h
    | succ n =>
      rw [hn] at h
      exact retryLoop_slept_eq fn opts.maxDelayMs opts.backoffMultiplier
        (n + 1) 1 opts.initialDelayMs i x h
  · rintro ⟨hA, h0, him, h1⟩ i
    have key : ∀ j, 0 ≤ delaySeq opts.maxDelayMs opts.backoffMultiplier opts.initialDelayMs j ∧
        delaySeq opts.maxDelayMs opts.backoffMultiplier opts.initialDelayMs j ≤ opts.maxDelayMs := by
      intro j
      induction j with
      | zero => exact ⟨h0, him⟩
      | succ j ihj =>
        refine ⟨le_min (mul_nonneg ihj.1 (by linarith)) (by linarith), min_le_right _ _⟩
    refine ⟨?_, (key i).2⟩
    show _ ≤ min _ _
    refine le_min ?_ (key i).2
    exact le_mul_of_one_le_right (key i).1 h1
  · intro i h1
    induction i with
    | zero => omega
    | succ i ihi =>
      rcases Nat.eq_or_lt_of_le h1 with h | h
      · show min (delaySeq 150 2 100 i * 2) 150 = 150
        rw [show i = 0 from by omega]
        show min (100 * 2 : ℚ) 150 = 150
        rw [min_eq_right]
        norm_num
      · show min (delaySeq 150 2 100 i * 2) 150 = 150
        rw [ihi (by omega)]
        rw [min_eq_right]
        norm_num

/-- Witness for `retry_delay_recurrence_monotone` at the policy
(maxAttempts 3, initialDelay 100, maxDelay 150, multiplier 2). -/
theorem retry_delay_recurrence_monotone_witness :
    ((100 : ℚ) = delaySeq 150 2 100 0 ∧
      delaySeq 150 2 100 0 ≤ delaySeq 150 2 100 1) ∧
      delaySeq 150 2 100 2 = 150 := by
  have h := retry_delay_recurrence_monotone failOp
    (⟨3, 100, 150, 2⟩ : RetryOptions)
  exact ⟨⟨h.1 0 100 (by decide), (h.2.1 (by norm_num [ValidRetryPolicy]) 0).1⟩,
    h.2.2.2 2 (by norm_num)⟩

/-- Updating a stack commutes with listing an endpoint: the listing of
the updated server is the mapped listing of the original. -/
theorem listStacks_serverUpdate (st : ServerState) (sid : Nat)
    (b : UpdateStackRequest) (eid : Nat) :
    listStacks (serverUpdate st sid b) eid =
      (listStacks st eid).map (fun s =>
        if s.Id = sid then { s with Env := b.env, UpdateDate := s.UpdateDate + 1 }
        else s) := by
  unfold listStacks serverUpdate
  rw [List.filter_map]
  have hp : (fun s : PortainerStack => decide (s.EndpointId = eid)) ∘
      (fun s : PortainerStack =>
        if s.Id = sid then { s with Env := b.env, UpdateDate := s.UpdateDate + 1 }
        else s) =
      fun s : PortainerStack => decide (s.EndpointId = eid) := by
    funext s
    by_cases h : s.Id = sid <;> simp [Function.comp, h]
  rw [hp]

/-- The find step ignores fields other than name and endpoint, so it
commutes with any stack transformation preserving those. -/
theorem findStackByName_map (l : List PortainerStack) (name : String)
    (eid : Nat) (f : PortainerStack → PortainerStack)
    (hN : ∀ s, (f s).Name = s.Name) (hE : ∀ s, (f s).EndpointId = s.EndpointId) :
    findStackByName (l.map f) name eid = (findStackByName l name eid).map f := by
  unfold findStackByName
  rw [List.find?_map]
  have hp : (fun s : PortainerStack => decide (s.Name = name ∧ s.EndpointId = eid)) ∘ f =
      fun s : PortainerStack => decide (s.Name = name ∧ s.EndpointId = eid) := by
    funext s
    simp [Function.comp, hN s, hE s]
  rw [hp]

/-- After a deploy, a stack with the deployed name exists on the
deployed endpoint: the create branch adds one, the update branch
preserves the found one. -/
theorem findStackByName_after_deploy (st : ServerState) (eid : Nat)
    (stackName composeContent : String) (envVars : List StackEnvVar) :
    (findStackByName
      (listStacks (deployStack st eid stackName composeContent envVars).state eid)
      stackName eid).isSome = true := by
  cases h : findStackByName (listStacks st eid) stackName eid with
  | some s =>
    simp only [deployStack, h]
    rw [listStacks_serverUpdate, findStackByName_map _ _ _ _
      (fun t => by by_cases ht : t.Id = s.Id <;> simp [ht])
      (fun t => by by_cases ht : t.Id = s.Id <;> simp [ht])]
    rw [h]
    simp
  | none =>
    simp only [deployStack, h, serverCreate]
    unfold findStackByName listStacks at h ⊢
    rw [List.filter_append, List.find?_append, h]
    simp



/-- C1: `deployStack` matches an existing stack only when both its name
and its endpoint id equal the targets; on a match it issues an update
with `prune` and `pullImage` set and returns the existing id with
status `updated`; with no match it issues a create and returns the
newly assigned id with status `created`; and a second deploy with
identical inputs always takes the update branch and leaves the number
of stacks unchanged — it never creates a second stack. -/
theorem deployStack_create_or_update (st : ServerState) (eid : Nat)
    (stackName composeContent : String) (envVars : List StackEnvVar) :
    (∀ (l : List PortainerStack) (s : PortainerStack),
        findStackByName l stackName eid = some s →
        s.Name = stackName ∧ s.EndpointId = eid) ∧
      (∀ s, findStackByName (listStacks st eid) stackName eid = some s →
        (deployStack st eid stackName composeContent envVars).result =
            ⟨s.Id, .updated⟩ ∧
          (deployStack st eid stackName composeContent envVars).calls =
            [.listCall eid, .updateCall s.Id eid
              ⟨composeContent, envVars, true, true⟩] ∧
          (deployStack st eid stackName composeContent envVars).state.stackList.length =
            st.stackList.length) ∧
      (findStackByName (listStacks st eid) stackName eid = none →
        (deployStack st eid stackName composeContent envVars).result =
            ⟨st.nextId, .created⟩ ∧
          (deployStack st eid stackName composeContent envVars).calls =
            [.listCall eid, .createCall eid
              ⟨stackName, composeContent, envVars, false⟩] ∧
          (deployStack st eid stackName composeContent envVars).state.stackList.length =
            st.stackList.length + 1) ∧
      (deployStack (deployStack st eid stackName composeContent envVars).state
          eid stackName composeContent envVars).result.status = .updated ∧
        (deployStack (deployStack st eid stackName composeContent envVars).state
          eid stackName composeContent envVars).state.stackList.length =
          (deployStack st eid stackName composeContent envVars).state.stackList.length := by
  refine ⟨?_, ?_, ?_, ?_⟩
  · intro l s h
    have hp := List.find?_some h
    simpa using hp
  · intro s h
    simp [deployStack, h, serverUpdate]
  · intro h
    simp [deployStack, h, serverCreate]
  · have hsome := findStackByName_after_deploy st eid stackName composeContent envVars
    set st1 := (deployStack st eid stackName composeContent envVars).state
    obtain ⟨s', hs'⟩ := Option.isSome_iff_exists.mp hsome
    constructor
    · simp [deployStack, hs']
    · simp [deployStack, hs', serverUpdate]



/-- Witness for `deployStack_create_or_update`: on `sampleServer`,
deploying `web` to endpoint 1 creates id 10 (the stack named `web` on
endpoint 9 is not a match), deploying to endpoint 9 updates id 7, and
redeploying to endpoint 1 updates. -/
theorem deployStack_create_or_update_witness :
    (deployStack sampleServer 1 "web" "c" []).result = ⟨10, .created⟩ ∧
      (deployStack sampleServer 9 "web" "c" []).result = ⟨7, .updated⟩ ∧
      (deployStack (deployStack sampleServer 1 "web" "c" []).state
        1 "web" "c" []).result.status = .updated := by
  have h1 := (deployStack_create_or_update sampleServer 1 "web" "c" []).2.2.1
    (by decide)
  have h2 := (deployStack_create_or_update sampleServer 9 "web" "c" []).2.1
    ⟨7, "web", 2, 9, 1, [], 0, 0⟩ (by decide)
  have h3 := (deployStack_create_or_update sampleServer 1 "web" "c" []).2.2.2.1
  exact ⟨h1.1, h2.1, h3⟩

/-- Indexing into a list extended by one element on the right. -/
theorem concat_getElem? {α : Type} (l : List α) (x : α) (i : Nat) :
    (l ++ [x])[i]? =
      if i < l.length then l[i]?
      else if i = l.length then some x else none := by
  rw [List.getElem?_append]
  by_cases h : i < l.length
  · rw [if_pos h, if_pos h]
  · rw [if_neg h, if_neg h]
    by_cases h2 : i = l.length
    · subst h2
      simp
    · rw [if_neg h2]
      obtain ⟨k, hk⟩ : ∃ k, i - l.length = k + 1 := ⟨i - l.length - 1, by omega⟩
      rw [hk]
      rfl

/-- Splicing out the unique entry carrying a name equals filtering
that name away. -/
theorem eraseIdx_eq_filter_of_unique :
    ∀ (l : List StackEnvVar) (e : Nat) (p : StackEnvVar),
      l[e]? = some p →
      (∀ i q, l[i]? = some q → q.name = p.name → i = e) →
      l.eraseIdx e = l.filter fun q => decide (q.name ≠ p.name) := by
  intro l
  induction l with
  | nil => intro e p h; simp at h
  | cons a t ih =>
    intro e p hep huniq
    cases e with
    | zero =>
      simp at hep
      subst hep
      show t = List.filter _ (a :: t)
      rw [List.filter_cons]
      rw [if_neg (by simp)]
      rw [List.filter_eq_self.mpr]
      intro q hq
      obtain ⟨n, hn⟩ := List.mem_iff_get?.mp hq
      rw [List.get?_eq_getElem?] at hn
      have : (a :: t)[n + 1]? = some q := by simpa using hn
      simp only [decide_eq_true_eq]
      intro hqa
      have := huniq (n + 1) q this hqa
      omega
    | succ e' =>
      have hat : t[e']? = some p := by simpa using hep
      have haname : ¬a.name = p.name := by
        intro hh
        have := huniq 0 a (by simp) hh
        omega
      show a :: t.eraseIdx e' = List.filter _ (a :: t)
      rw [List.filter_cons, if_pos (by simpa using haname)]
      rw [ih e' p hat]
      intro i q hq hname
      have := huniq (i + 1) q (by simpa using hq) hname
      omega



/-- The empty seen map matches the empty result list. -/
theorem seenInv_nil : SeenInv (fun _ => none) [] := by
  intro k i
  simp

/-- A name the seen map does not bind occurs nowhere in the result, so
filtering it away changes nothing. -/
theorem seenInv_none_filter {seen : String → Option Nat}
    {result : List StackEnvVar} {key : String}
    (h : SeenInv seen result) (hk : seen key = none) :
    result.filter (fun q => decide (q.name ≠ key)) = result := by
  rw [List.filter_eq_self]
  intro q hq
  obtain ⟨n, hn⟩ := List.mem_iff_get?.mp hq
  rw [List.get?_eq_getElem?] at hn
  simp only [decide_eq_true_eq]
  intro hqk
  have : seen key = some n := (h key n).mpr ⟨q, hn, hqk⟩
  rw [hk] at this
  exact Option.noConfusion this

/-- Appending a pair with an unseen name is a `dedupStep`. -/
theorem seenInv_dedupStep_new {seen : String → Option Nat}
    {result : List StackEnvVar} {key : String} (value : String)
    (h : SeenInv seen result) (hk : seen key = none) :
    result ++ [⟨key, value⟩] = dedupStep result ⟨key, value⟩ := by
  unfold dedupStep
  rw [seenInv_none_filter h hk]

/-- Splicing out the previous entry of a seen name and appending the
new pair is a `dedupStep`. -/
theorem seenInv_dedupStep_dup {seen : String → Option Nat}
    {result : List StackEnvVar} {key : String} {e : Nat} (value : String)
    (h : SeenInv seen result) (hk : seen key = some e) :
    result.eraseIdx e ++ [⟨key, value⟩] = dedupStep result ⟨key, value⟩ := by
  obtain ⟨p, hpe, hpname⟩ := (h key e).mp hk
  unfold dedupStep
  have huniq : ∀ i q, result[i]? = some q → q.name = p.name → i = e := by
    intro i q hq hname
    have : seen key = some i := (h key i).mpr ⟨q, hq, by rw [hname, hpname]⟩
    rw [hk] at this
    exact (Option.some.injEq _ _ ▸ this).symm
  rw [eraseIdx_eq_filter_of_unique result e p hpe huniq, hpname]



/-- The parser invariant survives inserting a pair with an unseen
name. -/
theorem seenInv_insert_new {seen : String → Option Nat}
    {result : List StackEnvVar} {key : String} (value : String)
    (h : SeenInv seen result) (hk : seen key = none) :
    SeenInv (mapSet seen key result.length) (result ++ [⟨key, value⟩]) := by
  intro k i
  unfold mapSet
  rw [concat_getElem?]
  by_cases hkk : k = key
  · subst hkk
    rw [if_pos rfl]
    constructor
    · intro h1
      have hi : i = result.length := (Option.some.inj h1).symm
      subst hi
      rw [if_neg (lt_irrefl _), if_pos rfl]
      exact ⟨⟨k, value⟩, rfl, rfl⟩
    · rintro ⟨q, hq, hqname⟩
      by_cases hlt : i < result.length
      · rw [if_pos hlt] at hq
        have : seen k = some i := (h k i).mpr ⟨q, hq, hqname⟩
        rw [hk] at this
        exact Option.noConfusion this
      · by_cases heq : i = result.length
        · rw [heq]
        · rw [if_neg hlt, if_neg heq] at hq
          exact Option.noConfusion hq
  · rw [if_neg hkk]
    constructor
    · intro h1
      obtain ⟨q, hq, hqn⟩ := (h k i).mp h1
      have hlt : i < result.length := (List.getElem?_eq_some.mp hq).1
      rw [if_pos hlt]
      exact ⟨q, hq, hqn⟩
    · rintro ⟨q, hq, hqn⟩
      by_cases hlt : i < result.length
      · rw [if_pos hlt] at hq
        exact (h k i).mpr ⟨q, hq, hqn⟩
      · by_cases heq : i = result.length
        · rw [if_neg hlt, if_pos heq] at hq
          have hq2 : (⟨key, value⟩ : StackEnvVar) = q := Option.some.inj hq
          rw [← hq2] at hqn
          exact absurd hqn.symm hkk
        · rw [if_neg hlt, if_neg heq] at hq
          exact Option.noConfusion hq



/-- The parser invariant survives the duplicate branch: splice out the
old entry, shift the recorded indices above it down by one, and bind
the name to the appended position. -/
theorem seenInv_insert_dup {seen seen' : String → Option Nat}
    {result : List StackEnvVar} {key : String} {e : Nat} (value : String)
    (h : SeenInv seen result) (hk : seen key = some e)
    (hseen' : ∀ k, seen' k =
      (seen k).map fun idx => if e < idx then idx - 1 else idx) :
    SeenInv (mapSet seen' key (result.eraseIdx e).length)
      (result.eraseIdx e ++ [⟨key, value⟩]) := by
  obtain ⟨pe, hpe, hpen⟩ := (h key e).mp hk
  have he : e < result.length := (List.getElem?_eq_some.mp hpe).1
  have hlen : (result.eraseIdx e).length = result.length - 1 := by
    rw [List.length_eraseIdx, if_pos he]
  intro k i
  unfold mapSet
  rw [concat_getElem?, List.getElem?_eraseIdx]
  by_cases hkk : k = key
  · rw [if_pos hkk]
    constructor
    · intro h1
      have hi : i = (result.eraseIdx e).length := (Option.some.inj h1).symm
      rw [hi, if_neg (lt_irrefl _), if_pos rfl]
      refine ⟨_, rfl, ?_⟩
      rw [hkk]
    · rintro ⟨q, hq, hqn⟩
      by_cases hlt : i < (result.eraseIdx e).length
      · rw [if_pos hlt] at hq
        by_cases hie : i < e
        · rw [if_pos hie] at hq
          have h2 : seen key = some i := (h key i).mpr ⟨q, hq, by rw [hqn, hkk]⟩
          rw [hk] at h2
          have := Option.some.inj h2
          omega
        · rw [if_neg hie] at hq
          have h2 : seen key = some (i + 1) :=
            (h key (i + 1)).mpr ⟨q, hq, by rw [hqn, hkk]⟩
          rw [hk] at h2
          have := Option.some.inj h2
          omega
      · by_cases heq : i = (result.eraseIdx e).length
        · rw [heq]
        · rw [if_neg hlt, if_neg heq] at hq
          exact Option.noConfusion hq
  · rw [if_neg hkk, hseen' k]
    constructor
    · intro h1
      rw [Option.map_eq_some'] at h1
      obtain ⟨j, hj, hadj⟩ := h1
      obtain ⟨q, hq, hqn⟩ := (h k j).mp hj
      have hjlen : j < result.length := (List.getElem?_eq_some.mp hq).1
      have hje : j ≠ e := by
        intro hh
        rw [hh, hpe] at hq
        have h3 : pe = q := Option.some.inj hq
        rw [← h3] at hqn
        exact hkk (by rw [← hqn, hpen])
      by_cases hje2 : e < j
      · rw [if_pos hje2] at hadj
        have hilt : i < (result.eraseIdx e).length := by omega
        rw [if_pos hilt, if_neg (by omega : ¬ i < e)]
        have h4 : i + 1 = j := by omega
        rw [h4]
        exact ⟨q, hq, hqn⟩
      · rw [if_neg hje2] at hadj
        have hji : j = i := hadj
        rw [← hji]
        have hilt : j < (result.eraseIdx e).length := by omega
        rw [if_pos hilt, if_pos (by omega : j < e)]
        exact ⟨q, hq, hqn⟩
    · rintro ⟨q, hq, hqn⟩
      by_cases hlt : i < (result.eraseIdx e).length
      · rw [if_pos hlt] at hq
        by_cases hie : i < e
        · rw [if_pos hie] at hq
          have hj : seen k = some i := (h k i).mpr ⟨q, hq, hqn⟩
          rw [hj, Option.map_some', if_neg (by omega : ¬ e < i)]
        · rw [if_neg hie] at hq
          have hj : seen k = some (i + 1) := (h k (i + 1)).mpr ⟨q, hq, hqn⟩
          rw [hj, Option.map_some', if_pos (by omega : e < i + 1)]
          simp
      · by_cases heq : i = (result.eraseIdx e).length
        · rw [if_neg hlt, if_pos heq] at hq
          have h5 : (⟨key, value⟩ : StackEnvVar) = q := Option.some.inj hq
          rw [← h5] at hqn
          exact absurd hqn.symm hkk
        · rw [if_neg hlt, if_neg heq] at hq
          exact Option.noConfusion hq



/-- The imperative parser loop computes exactly the `dedupStep` fold
over the declared pairs of the remaining lines (and fails on exactly
the same inputs with the same message). -/
theorem parseLoop_eq_pairsLoop :
    ∀ (lines : List (List Char)) (i : Nat) (seen : String → Option Nat)
      (result : List StackEnvVar), SeenInv seen result →
      parseLoop seen result i lines =
        (pairsLoop i lines).map fun ps => ps.foldl dedupStep result := by
  intro lines
  induction lines with
  | nil =>
    intro i seen result hinv
    rfl
  | cons raw rest ih =>
    intro i seen result hinv
    simp only [parseLoop, pairsLoop]
    by_cases h1 : jsTrim raw = [] ∨ (jsTrim raw).head? = some '#'
    · rw [if_pos h1, if_pos h1]
      exact ih (i + 1) seen result hinv
    · rw [if_neg h1, if_neg h1]
      by_cases h2 : (jsTrim raw).indexOf '=' = (jsTrim raw).length
      · rw [if_pos h2, if_pos h2]
        rfl
      · rw [if_neg h2, if_neg h2]
        by_cases h3 :
            (jsTrim ((jsTrim raw).take ((jsTrim raw).indexOf '='))).asString = ""
        · rw [if_pos h3, if_pos h3]
          rfl
        · rw [if_neg h3, if_neg h3]
          cases hseen : seen
              ((jsTrim ((jsTrim raw).take ((jsTrim raw).indexOf '='))).asString) with
          | none =>
            simp only [hseen]
            rw [ih (i + 1) _ _ (seenInv_insert_new _ hinv hseen)]
            cases hp : pairsLoop (i + 1) rest with
            | error msg => rfl
            | ok ps =>
              simp only [Except.map]
              rw [seenInv_dedupStep_new _ hinv hseen]
              rfl
          | some e =>
            simp only [hseen]
            rw [ih (i + 1) _ _ (seenInv_insert_dup _ hinv hseen (fun k => rfl))]
            cases hp : pairsLoop (i + 1) rest with
            | error msg => rfl
            | ok ps =>
              simp only [Except.map]
              rw [seenInv_dedupStep_dup _ hinv hseen]
              rfl



/-- The `dedupStep` fold keeps, for each name, its last occurrence: it
is `lastWins` preceded by the surviving part of the accumulator. -/
theorem foldl_dedupStep_eq (ps : List StackEnvVar) : ∀ acc : List StackEnvVar,
    ps.foldl dedupStep acc =
      acc.filter (fun q => decide (q.name ∉ ps.map StackEnvVar.name)) ++
        lastWins ps := by
  induction ps with
  | nil =>
    intro acc
    simp [lastWins]
  | cons p ps ihp =>
    intro acc
    rw [List.foldl_cons, ihp (dedupStep acc p)]
    unfold dedupStep
    rw [List.filter_append, List.filter_filter]
    show _ ++ _ ++ _ = _ ++ lastWins (p :: ps)
    rw [lastWins]
    have hpred : ∀ q : StackEnvVar,
        (decide (q.name ∉ List.map StackEnvVar.name ps) &&
          decide (q.name ≠ p.name)) =
        decide (q.name ∉ List.map StackEnvVar.name (p :: ps)) := by
      intro q
      by_cases hq1 : q.name = p.name <;> by_cases hq2 : q.name ∈ ps.map StackEnvVar.name <;>
        simp [hq1, hq2]
    have hacc : List.filter
        (fun q => decide (q.name ∉ List.map StackEnvVar.name ps) &&
          decide (q.name ≠ p.name)) acc =
        List.filter (fun q => decide (q.name ∉ List.map StackEnvVar.name (p :: ps))) acc := by
      apply List.filter_congr
      intro q _
      exact hpred q
    rw [hacc]
    by_cases hmem : p.name ∈ ps.map StackEnvVar.name
    · rw [if_pos hmem]
      have hp1 : List.filter
          (fun q => decide (q.name ∉ List.map StackEnvVar.name ps)) [p] = [] := by
        simp
        simpa using hmem
      rw [hp1, List.append_assoc]
      rfl
    · rw [if_neg hmem]
      have hp1 : List.filter
          (fun q => decide (q.name ∉ List.map StackEnvVar.name ps)) [p] = [p] := by
        simp
        simpa using hmem
      rw [hp1, List.append_assoc]
      rfl



/-- C4, amended: for every input, `parseEnvVars` resolves duplicates
by "last value wins, final position = position of the key's LAST
occurrence": its output is exactly `lastWins` of the declared pair
sequence, which keeps a single entry per key, carrying the last
declared value, at the last occurrence's position. -/
theorem parseEnvVars_last_wins (input : String) (ps : List StackEnvVar)
    (h : parsePairs input = .ok ps) :
    parseEnvVars input = .ok (lastWins ps) := by
  unfold parseEnvVars
  unfold parsePairs at h
  by_cases ht : jsTrim input.toList = []
  · rw [if_pos ht] at h ⊢
    have hps : ([] : List StackEnvVar) = ps := Except.ok.inj h
    rw [← hps]
    rfl
  · rw [if_neg ht] at h ⊢
    rw [parseLoop_eq_pairsLoop (jsSplit '\n' input.toList) 0 _ [] seenInv_nil, h]
    show Except.ok (List.foldl dedupStep [] ps) = _
    rw [foldl_dedupStep_eq ps []]
    rfl

/-- Witness for `parseEnvVars_last_wins` at the spec example
`"A=1\nB=2\nA=3"`. -/
theorem parseEnvVars_last_wins_witness :
    parsePairs "A=1\nB=2\nA=3" =
        .ok [⟨"A", "1"⟩, ⟨"B", "2"⟩, ⟨"A", "3"⟩] ∧
      parseEnvVars "A=1\nB=2\nA=3" =
        .ok (lastWins [⟨"A", "1"⟩, ⟨"B", "2"⟩, ⟨"A", "3"⟩]) :=
  ⟨by decide, parseEnvVars_last_wins "A=1\nB=2\nA=3" _ (by decide)⟩

end PortainerAction
